import Mathlib

/-!
Verification of the change-representation and wire-encoding core of the
corrosion repository (crates/corro-api-types/src/lib.rs) and of the consul
service-diffing logic (crates/corrosion/src/command/consul/sync.rs).

Conventions of the shallow embedding:
* byte sequences are `List Nat` whose elements are < 256 where it matters;
* Rust `i64` is `Int`, encoded through its two's complement residue mod 2^64;
* Rust `f64` is represented by its 64-bit pattern (a `Nat` < 2^64): the codec
  only ever moves the raw bits (`f64::to_bits` / `from_bits`), so this is
  exact; IEEE-754 equality (the derived `PartialEq` on `Real`) is modelled by
  `f64BitsEq` on bit patterns;
* Rust `String` / `CompactString` is its UTF-8 byte content (a `String` in
  Rust is exactly a byte vector that is valid UTF-8); `validUtf8` is the
  UTF-8 well-formedness predicate on byte sequences;
* fallible operations return `Option`, `none` standing for the `Err` case.

All multi-byte integers use speedy's default little-endian layout, and
length prefixes are 32-bit, as in the source.
-/

/-- The `k` little-endian bytes of `n % 256^k`. -/
def natLE : Nat → Nat → List Nat
  | 0, _ => []
  | k + 1, n => n % 256 :: natLE k (n / 256)

/-- Read a little-endian byte sequence back into a `Nat`. -/
def natFromLE : List Nat → Nat
  | [] => 0
  | b :: rest => b + 256 * natFromLE rest

/-- Take exactly `k` bytes from the front of the input, failing on short
input (speedy errors when the reader runs out of bytes). -/
def readBytes (k : Nat) (bs : List Nat) : Option (List Nat × List Nat) :=
  if k ≤ bs.length then some (bs.take k, bs.drop k) else none

/-- Two's complement residue of an `i64`, as written on the wire. -/
def toTwos (i : Int) : Nat := (i % (2 ^ 64 : Int)).toNat

/-- Reinterpret a 64-bit residue as a signed `i64`. -/
def fromTwos (n : Nat) : Int :=
  if n < 2 ^ 63 then (n : Int) else (n : Int) - 2 ^ 64

theorem natLE_length (k n : Nat) : (natLE k n).length = k := by
  induction k generalizing n with
  | zero => rfl
  | succ k ih => simp [natLE, ih]

theorem natFromLE_natLE (k n : Nat) (h : n < 256 ^ k) :
    natFromLE (natLE k n) = n := by
  induction k generalizing n with
  | zero =>
    simp only [pow_zero, Nat.lt_one_iff] at h
    simp [natLE, natFromLE, h]
  | succ k ih =>
    have hdiv : n / 256 < 256 ^ k := by
      rw [Nat.div_lt_iff_lt_mul (by norm_num)]
      calc n < 256 ^ (k + 1) := h
      _ = 256 ^ k * 256 := by ring
    simp [natLE, natFromLE, ih _ hdiv, Nat.mod_add_div]

theorem readBytes_append (xs r : List Nat) :
    readBytes xs.length (xs ++ r) = some (xs, r) := by
  simp [readBytes]

theorem toTwos_lt (i : Int) : toTwos i < 2 ^ 64 := by
  have h1 : 0 ≤ i % (2 ^ 64 : Int) := Int.emod_nonneg i (by norm_num)
  have h2 : i % (2 ^ 64 : Int) < 2 ^ 64 := Int.emod_lt_of_pos i (by norm_num)
  simp only [toTwos]
  omega

/-! ## The value model

`SqliteValue` (lib.rs lines 382-392).  `Real` carries the `f64` bit
pattern, `Text` the UTF-8 bytes of the `CompactString`, `Blob` the raw
bytes of the `SmallVec`. -/

inductive SqliteValue where
  | Null
  | Integer (i : Int)
  | Real (bits : Nat)
  | Text (s : List Nat)
  | Blob (b : List Nat)
deriving DecidableEq

/-- The borrowed mirror of `SqliteValue` (lib.rs lines 209-217).  Borrowing
is not representable in the embedding, so the payloads are the same byte
sequences the references point at. -/
inductive SqliteValueRef where
  | Null
  | Integer (i : Int)
  | Real (bits : Nat)
  | Text (s : List Nat)
  | Blob (b : List Nat)
deriving DecidableEq

/-- Model of `SqliteValue::as_ref` (lib.rs lines 477-485). -/
def SqliteValue.as_ref : SqliteValue → SqliteValueRef
  | .Null => .Null
  | .Integer i => .Integer i
  | .Real r => .Real r
  | .Text s => .Text s
  | .Blob v => .Blob v

/-- Model of `SqliteValueRef::to_owned` (lib.rs lines 252-260). -/
def SqliteValueRef.to_owned : SqliteValueRef → SqliteValue
  | .Null => .Null
  | .Integer v => .Integer v
  | .Real v => .Real v
  | .Text v => .Text v
  | .Blob v => .Blob v

/-- Model of `ColumnType` (lib.rs lines 263-270). -/
inductive ColumnType where
  | Integer
  | Float
  | Text
  | Blob
  | Null
deriving DecidableEq

/-- The numeric discriminants assigned in the Rust `enum ColumnType`
declaration (`Integer = 1, Float = 2, Text = 3, Blob = 4, Null = 5`). -/
def ColumnType.code : ColumnType → Nat
  | .Integer => 1
  | .Float => 2
  | .Text => 3
  | .Blob => 4
  | .Null => 5

/-- Model of `ColumnType::from_u8` (lib.rs lines 273-282). -/
def ColumnType.from_u8 (u : Nat) : Option ColumnType :=
  if u = 1 then some .Integer
  else if u = 2 then some .Float
  else if u = 3 then some .Text
  else if u = 4 then some .Blob
  else if u = 5 then some .Null
  else none

/-- Model of `SqliteValue::column_type` (lib.rs lines 427-435). -/
def SqliteValue.column_type : SqliteValue → ColumnType
  | .Null => ColumnType.Null
  | .Integer _ => ColumnType.Integer
  | .Real _ => ColumnType.Float
  | .Text _ => ColumnType.Text
  | .Blob _ => ColumnType.Blob

/-- Model of `SqliteValue::estimated_byte_size` (lib.rs lines 487-495). -/
def SqliteValue.estimated_byte_size : SqliteValue → Nat
  | .Null => 1 + 1
  | .Integer _ => 1 + 8
  | .Real _ => 1 + 8
  | .Text t => 1 + (4 + t.length)
  | .Blob v => 1 + (4 + v.length)

/-! ## IEEE-754 bit-pattern helpers

`integer_decode` (lib.rs lines 412-424) and the semantics of the derived
`PartialEq` on `Real` (IEEE-754 `f64` comparison of the two bit
patterns). -/

/-- The 11 exponent bits of an `f64` bit pattern. -/
def f64Exp (bits : Nat) : Nat := (bits >>> 52) &&& 0x7ff

/-- The 52 fraction bits of an `f64` bit pattern. -/
def f64Frac (bits : Nat) : Nat := bits &&& 0xfffffffffffff

/-- A bit pattern denotes a NaN iff the exponent is all ones and the
fraction is non-zero. -/
def f64IsNaN (bits : Nat) : Bool := f64Exp bits == 2047 && f64Frac bits != 0

/-- A bit pattern denotes (positive or negative) zero. -/
def f64IsZero (bits : Nat) : Bool := f64Exp bits == 0 && f64Frac bits == 0

/-- IEEE-754 equality on 64-bit patterns: NaN is equal to nothing, the two
zeros are equal to each other, and every other value is equal exactly to
its own bit pattern.  This is the meaning of the derived `PartialEq` on
`Real(pub f64)` (lib.rs line 394). -/
def f64BitsEq (b1 b2 : Nat) : Bool :=
  !f64IsNaN b1 && !f64IsNaN b2 && (b1 == b2 || (f64IsZero b1 && f64IsZero b2))

/-- Model of `integer_decode` (lib.rs lines 412-424): decompose an `f64` bit pattern
into (mantissa, exponent, sign).  This triple is exactly the data the
`Hash` impl for `Real` (lib.rs lines 406-410) feeds to the hasher. -/
def integer_decode (bits : Nat) : Nat × Int × Int :=
  let sign : Int := if bits >>> 63 = 0 then 1 else -1
  let exponent : Int := ((f64Exp bits : Int)) - (1023 + 52)
  let mantissa : Nat :=
    if f64Exp bits = 0 then (f64Frac bits) <<< 1
    else (f64Frac bits) ||| 0x10000000000000
  (mantissa, exponent, sign)

/-! ## UTF-8 validity

Byte-level UTF-8 well-formedness (the property `std::str::from_utf8`
checks and `CompactString::from_utf8_unchecked` assumes). -/

/-- A UTF-8 continuation byte: `10xxxxxx`. -/
def isUtf8Cont (b : Nat) : Bool := 128 ≤ b && b < 192

/-- UTF-8 well-formedness of a byte sequence, including the rejection of
overlong encodings, surrogates and code points above U+10FFFF. -/
def validUtf8 : List Nat → Bool
  | [] => true
  | b :: rest =>
    if b < 128 then validUtf8 rest
    else if b < 194 then false
    else if b < 224 then
      match rest with
      | c1 :: r => isUtf8Cont c1 && validUtf8 r
      | [] => false
    else if b < 240 then
      match rest with
      | c1 :: c2 :: r =>
        (if b = 224 then decide (160 ≤ c1) && decide (c1 < 192)
         else if b = 237 then decide (128 ≤ c1) && decide (c1 < 160)
         else isUtf8Cont c1) && isUtf8Cont c2 && validUtf8 r
      | _ => false
    else if b < 245 then
      match rest with
      | c1 :: c2 :: c3 :: r =>
        (if b = 240 then decide (144 ≤ c1) && decide (c1 < 192)
         else if b = 244 then decide (128 ≤ c1) && decide (c1 < 144)
         else isUtf8Cont c1) && isUtf8Cont c2 && isUtf8Cont c3 && validUtf8 r
      | _ => false
    else false

/-! ## The binary codec for values

`impl Writable for SqliteValue` (lib.rs lines 607-644) and
`impl Readable for SqliteValue` (lib.rs lines 572-605).

speedy writes a `&[u8]` / `&str` as a 32-bit little-endian length prefix
followed by the raw bytes, and errors out when the length does not fit in
a `u32`. -/

/-- A 4-byte length prefix followed by the payload, failing when the
length exceeds `u32::MAX` (speedy's `write_length`). -/
def withLen (bs : List Nat) : Option (List Nat) :=
  if bs.length < 2 ^ 32 then some (natLE 4 bs.length ++ bs) else none

/-- Model of `SqliteValue::write_to`: a one-byte tag (`Null = 0`, `Integer = 1`,
`Real = 2`, `Text = 3`, `Blob = 4`) followed by the payload. -/
def encodeValue : SqliteValue → Option (List Nat)
  | .Null => some [0]
  | .Integer i => some (1 :: natLE 8 (toTwos i))
  | .Real bits => some (2 :: natLE 8 bits)
  | .Text s => (withLen s).map (fun p => 3 :: p)
  | .Blob b => (withLen b).map (fun p => 4 :: p)

/-- Model of `SqliteValue::bytes_needed` (lib.rs lines 635-643): `1` for the tag
plus the field's own size accounting (8 for `i64`/`f64`, `4 + len` for a
length-prefixed slice). -/
def SqliteValue.bytes_needed : SqliteValue → Nat
  | .Null => 1 + 0
  | .Integer _ => 1 + 8
  | .Real _ => 1 + 8
  | .Text s => 1 + (4 + s.length)
  | .Blob b => 1 + (4 + b.length)

/-- Model of `SqliteValue::read_from` (lib.rs lines 577-599).

The `Text` arm (tag 3) reads the length-prefixed bytes and adopts them
with `CompactString::from_utf8_unchecked`: no UTF-8 validation happens.

The `Blob` arm (tag 4) reads the 32-bit length `len`, then runs
`reader.read_bytes(&mut vec)` on `vec = SmallVec::with_capacity(len)`.
speedy's `Reader::read_bytes(output: &mut [u8])` fills exactly
`output.len()` bytes, and a `SmallVec` fresh out of `with_capacity` has
length 0, so zero bytes of payload are consumed and the resulting blob is
always empty — the `len` payload bytes are left in the reader.

Any other tag is the hard error `unknown SqliteValue variant`. -/
def decodeValue : List Nat → Option (SqliteValue × List Nat)
  | [] => none
  | t :: rest =>
    if t = 0 then some (SqliteValue.Null, rest)
    else if t = 1 then
      match readBytes 8 rest with
      | some (b, r) => some (SqliteValue.Integer (fromTwos (natFromLE b)), r)
      | none => none
    else if t = 2 then
      match readBytes 8 rest with
      | some (b, r) => some (SqliteValue.Real (natFromLE b), r)
      | none => none
    else if t = 3 then
      match readBytes 4 rest with
      | some (l4, r) =>
        match readBytes (natFromLE l4) r with
        | some (b, r2) => some (SqliteValue.Text b, r2)
        | none => none
      | none => none
    else if t = 4 then
      match readBytes 4 rest with
      | some (_, r) => some (SqliteValue.Blob [], r)
      | none => none
    else none

/-! ## The Change record and its codec

`Change` (lib.rs lines 164-175) with the derived speedy `Readable` /
`Writable`: fields in declaration order; `table` and `cid` are written as
length-prefixed strings (and validated as UTF-8 on read, since the derived
reader goes through `&str`), `pk` as a length-prefixed byte vector,
`site_id` as 16 raw bytes with no prefix, and the `i64` fields as 8
little-endian bytes each. -/

structure Change where
  table : List Nat
  pk : List Nat
  cid : List Nat
  val : SqliteValue
  col_version : Int
  db_version : Int
  seq : Int
  site_id : List Nat
  cl : Int
deriving DecidableEq

/-- Model of `Change::estimated_byte_size` (lib.rs lines 180-192): the three
string/byte fields without their length prefixes, the value's own
estimate, then 8 + 8 + 8 + 16 + 8 for the fixed-width fields. -/
def Change.estimated_byte_size (c : Change) : Nat :=
  c.table.length + c.pk.length + c.cid.length + c.val.estimated_byte_size
    + 8 + 8 + 8 + 16 + 8

/-- The derived `Change::write_to`: every field in declaration order. -/
def encodeChange (c : Change) : Option (List Nat) := do
  let t ← withLen c.table
  let p ← withLen c.pk
  let ci ← withLen c.cid
  let v ← encodeValue c.val
  some (t ++ p ++ ci ++ v
    ++ natLE 8 (toTwos c.col_version) ++ natLE 8 (toTwos c.db_version)
    ++ natLE 8 (toTwos c.seq) ++ c.site_id ++ natLE 8 (toTwos c.cl))

/-- Read a length-prefixed byte vector (speedy `Vec<u8>`). -/
def readLenBytes (bs : List Nat) : Option (List Nat × List Nat) := do
  let (l4, r) ← readBytes 4 bs
  readBytes (natFromLE l4) r

/-- Read a length-prefixed string; speedy's `&str` reader validates
UTF-8. -/
def readStr (bs : List Nat) : Option (List Nat × List Nat) := do
  let (s, r) ← readLenBytes bs
  if validUtf8 s then some (s, r) else none

/-- Read an `i64`: 8 little-endian bytes, two's complement. -/
def readI64 (bs : List Nat) : Option (Int × List Nat) :=
  (readBytes 8 bs).map (fun p => (fromTwos (natFromLE p.1), p.2))

/-- The derived `Change::read_from`. -/
def decodeChange (bs : List Nat) : Option (Change × List Nat) := do
  let (t, r1) ← readStr bs
  let (p, r2) ← readLenBytes r1
  let (ci, r3) ← readStr r2
  let (v, r4) ← decodeValue r3
  let (cv, r5) ← readI64 r4
  let (dv, r6) ← readI64 r5
  let (sq, r7) ← readI64 r6
  let (sid, r8) ← readBytes 16 r7
  let (clv, r9) ← readI64 r8
  some ({ table := t, pk := p, cid := ci, val := v, col_version := cv
          db_version := dv, seq := sq, site_id := sid, cl := clv }, r9)

/-- Validity of a `SqliteValue` as a value constructible in the Rust
program: `i64` range for integers, 64 bits for a float pattern, UTF-8
contents and `u32`-sized length for text, `u32`-sized length for blobs. -/
def validValueB : SqliteValue → Bool
  | .Null => true
  | .Integer i => decide (-(2 ^ 63) ≤ i) && decide (i < 2 ^ 63)
  | .Real bits => decide (bits < 2 ^ 64)
  | .Text s => decide (s.length < 2 ^ 32) && validUtf8 s
  | .Blob b => decide (b.length < 2 ^ 32)

/-- Validity of a `Change`: encodable field lengths, a valid value, and a
16-byte `site_id`. -/
def validChangeB (c : Change) : Bool :=
  decide (c.table.length < 2 ^ 32) && decide (c.pk.length < 2 ^ 32)
    && decide (c.cid.length < 2 ^ 32) && validValueB c.val
    && decide (c.site_id.length = 16)

/-! ## Statement and its untagged textual serialization

`Statement` (lib.rs lines 121-132) and `SqliteParam` (lib.rs lines
312-324) are serde `#[serde(untagged)]` enums: the JSON shape itself picks
the variant, trying the variants in declaration order.

The JSON value model represents a number the way serde_json stores it
after parsing: an integer literal is `int` (the widening of integers
outside `i64` into floats is performed where the program performs it, in
the parameter deserializer), and a non-integer number literal is `num`,
carrying the `f64` bit pattern it parses to. -/

inductive Json where
  | null
  | bool (b : Bool)
  | int (n : Int)
  | num (bits : Nat)
  | str (s : String)
  | arr (items : List Json)
  | obj (fields : List (String × Json))

/-- Look a field up in a JSON object (serde ignores unknown fields of a
struct and uses the first binding of a key). -/
def getField : List (String × Json) → String → Option Json
  | [], _ => none
  | (k, v) :: rest, key => if k = key then some v else getField rest key

/-- Model of `SqliteParam` (lib.rs lines 312-324).  `Real` carries the
`f64` bit pattern; `Json` keeps the raw JSON value like `Box<RawValue>`
does. -/
inductive SqliteParam where
  | Null
  | Bool (b : Bool)
  | Integer (i : Int)
  | Real (bits : Nat)
  | Text (s : String)
  | Blob (b : List Nat)
  | Json (j : Json)

/-- IEEE-754 conversion of a positive integer to `f64` bits, rounding to
nearest with ties to even — the rounding Rust applies both in `u64 as
f64` casts and in decimal-to-`f64` parsing.  Values of `2^1024` and
beyond overflow to infinity. -/
def natToF64bits (n : Nat) : Nat :=
  if n = 0 then 0
  else
    let k := Nat.log2 n
    if k ≤ 52 then
      ((1023 + k) <<< 52) ||| ((n <<< (52 - k)) - (1 <<< 52))
    else
      let shift := k - 52
      let q := n >>> shift
      let r := n % (1 <<< shift)
      let half := 1 <<< (shift - 1)
      let q2 := if half < r ∨ (r = half ∧ q % 2 = 1) then q + 1 else q
      if q2 = 1 <<< 53 then
        if 2047 ≤ 1023 + (k + 1) then 0x7ff0000000000000
        else (1023 + (k + 1)) <<< 52
      else
        if 2047 ≤ 1023 + k then 0x7ff0000000000000
        else ((1023 + k) <<< 52) ||| (q2 - (1 <<< 52))

/-- IEEE-754 conversion of an integer to `f64` bits (round to nearest,
ties to even). -/
def intToF64bits (i : Int) : Nat :=
  if 0 ≤ i then natToF64bits i.toNat
  else (1 <<< 63) ||| natToF64bits (-i).toNat

/-- A JSON value accepted by serde's `u8` deserializer. -/
def jsonByte : Json → Option Nat
  | .int n => if 0 ≤ n ∧ n < 256 then some n.toNat else none
  | _ => none

/-- Deserialize a JSON value as a `SqliteParam`, following serde's
untagged semantics: the variants are tried in declaration order (`Null`,
`Bool`, `Integer`, `Real`, `Text`, `Blob`, `Json`) against the buffered
content.  A JSON integer in `i64` range hits `Integer`; an integer
outside that range (stored by the parser as `u64` or already widened to
`f64`) and every float hit `Real`, with the usual round-to-nearest
conversion.  An array of bytes hits `Blob`.  The trailing
`Json(Box<RawValue>)` arm never succeeds in this position: serde's
untagged machinery buffers the input into its private `Content` form,
from which `RawValue` cannot be deserialized, so an object or a non-byte
array fails every arm and the parameter — and with it the enclosing
statement — fails to parse. -/
def deserializeParam : Json → Option SqliteParam
  | .null => some .Null
  | .bool b => some (.Bool b)
  | .int n =>
    if -(2 ^ 63) ≤ n ∧ n < 2 ^ 63 then some (.Integer n)
    else some (.Real (intToF64bits n))
  | .num bits => some (.Real bits)
  | .str s => some (.Text s)
  | .arr items => (items.mapM jsonByte).map (fun bs => .Blob bs)
  | .obj _ => none

/-- Serialize a `SqliteParam` back to JSON. -/
def serializeParam : SqliteParam → Json
  | .Null => .null
  | .Bool b => .bool b
  | .Integer i => .int i
  | .Real bits => .num bits
  | .Text s => .str s
  | .Blob bs => .arr (bs.map (fun b => .int b))
  | .Json j => j

/-- Model of `Statement` (lib.rs lines 121-132), in Rust declaration order:
`Verbose`, `Simple`, `WithParams`, `WithNamedParams`. -/
inductive Statement where
  | Verbose (query : String) (params : Option (List SqliteParam))
      (named_params : Option (List (String × SqliteParam)))
  | Simple (query : String)
  | WithParams (query : String) (params : List SqliteParam)
  | WithNamedParams (query : String)
      (named_params : List (String × SqliteParam))

/-- Model of `Statement::query` (lib.rs lines 135-142). -/
def Statement.query : Statement → String
  | .Verbose q _ _ => q
  | .Simple q => q
  | .WithParams q _ => q
  | .WithNamedParams q _ => q

/-- Serialize an optional positional-parameter list (`Option<Vec<_>>`
with no skip attribute: `None` becomes JSON `null`). -/
def serOptParams : Option (List SqliteParam) → Json
  | none => .null
  | some ps => .arr (ps.map serializeParam)

/-- Serialize an optional named-parameter map. -/
def serOptNamed : Option (List (String × SqliteParam)) → Json
  | none => .null
  | some nps => .obj (nps.map (fun p => (p.1, serializeParam p.2)))

/-- The serde `Serialize` of `Statement`: untagged, so a struct variant is
a JSON object of its fields, a newtype variant is its payload, a tuple
variant is a JSON array. -/
def serializeStatement : Statement → Json
  | .Verbose q ps nps =>
    .obj [("query", .str q), ("params", serOptParams ps),
          ("named_params", serOptNamed nps)]
  | .Simple q => .str q
  | .WithParams q ps => .arr [.str q, .arr (ps.map serializeParam)]
  | .WithNamedParams q nps =>
    .arr [.str q, .obj (nps.map (fun p => (p.1, serializeParam p.2)))]

/-- Deserialize an `Option` struct field: absent or `null` is `None`, any
other value must deserialize as the payload. -/
def optField (f : Json → Option α) : Option Json → Option (Option α)
  | none => some none
  | some .null => some none
  | some j => (f j).map some

/-- A JSON array of parameters; fails when any element fails. -/
def deserParams : Json → Option (List SqliteParam)
  | .arr items => items.mapM deserializeParam
  | _ => none

/-- A JSON object of named parameters; fails when any value fails. -/
def deserNamed : Json → Option (List (String × SqliteParam))
  | .obj fields =>
    fields.mapM (fun p => (deserializeParam p.2).map (fun v => (p.1, v)))
  | _ => none

/-- The `Verbose` arm: a JSON object whose `query` field is a string,
with optional `params` / `named_params` fields. -/
def deserVerbose (j : Json) : Option Statement :=
  match j with
  | .obj fields =>
    match getField fields "query" with
    | some (.str q) =>
      match optField deserParams (getField fields "params"),
            optField deserNamed (getField fields "named_params") with
      | some ps, some nps => some (.Verbose q ps nps)
      | _, _ => none
    | _ => none
  | _ => none

/-- The `Simple` arm: a bare JSON string. -/
def deserSimple : Json → Option Statement
  | .str s => some (.Simple s)
  | _ => none

/-- The `WithParams` arm: a two-element array of a string and a parameter
array whose every element deserializes. -/
def deserWithParams : Json → Option Statement
  | .arr [.str q, .arr items] =>
    (items.mapM deserializeParam).map (fun ps => .WithParams q ps)
  | _ => none

/-- The `WithNamedParams` arm: a two-element array of a string and an
object whose every value deserializes. -/
def deserWithNamedParams : Json → Option Statement
  | .arr [.str q, .obj fields] =>
    (fields.mapM (fun p => (deserializeParam p.2).map (fun v => (p.1, v)))).map
      (fun nps => .WithNamedParams q nps)
  | _ => none

/-- The serde `Deserialize` of the untagged `Statement`: try the variants
in declaration order, first success wins. -/
def deserializeStatement (j : Json) : Option Statement :=
  (deserVerbose j).orElse fun _ =>
    (deserSimple j).orElse fun _ =>
      (deserWithParams j).orElse fun _ => deserWithNamedParams j

/-! ## The consul service diff

`update_services` (sync.rs lines 341-373).  `AgentService` comes from the
external `consul_client` crate (its fields appear in the repository's
test, sync.rs lines 622-631).  `hash_service` (sync.rs lines 214-218)
feeds the whole struct to an external `SeaHasher`; the diff logic only
ever compares hashes for equality, so the hash function is taken as a
parameter `h` of the embedding. -/

structure AgentService where
  id : String
  name : String
  tags : List String
  meta : List (String × String)
  port : Int
  address : String
deriving DecidableEq

inductive ConsulServiceOp where
  | Upsert (svc : AgentService) (hash : Nat)
  | Delete (id : String)
deriving DecidableEq

/-- Model of `HashMap::remove` on an association list with distinct keys. -/
def removeKey (id : String) (m : List (String × AgentService)) :
    List (String × AgentService) :=
  m.filter (fun p => !(p.1 == id))

/-- The first loop of `update_services` (sync.rs lines 348-362): walk the
stored hashes; a stored id still present in `services` is removed from it
and upserted when its hash changed (or unconditionally under
`skip_hash_check`); a stored id that disappeared is deleted.  Returns the
emitted operations and the services that remain unvisited. -/
def update_services_loop (h : AgentService → Nat)
    (hashes : List (String × Nat)) (services : List (String × AgentService))
    (skip_hash_check : Bool) :
    List ConsulServiceOp × List (String × AgentService) :=
  match hashes with
  | [] => ([], services)
  | (id, old_hash) :: rest =>
    match List.lookup id services with
    | some svc =>
      let next := update_services_loop h rest (removeKey id services) skip_hash_check
      if skip_hash_check || old_hash != h svc then
        (ConsulServiceOp.Upsert svc (h svc) :: next.1, next.2)
      else next
    | none =>
      let next := update_services_loop h rest services skip_hash_check
      (ConsulServiceOp.Delete id :: next.1, next.2)

/-- Model of `update_services` (sync.rs lines 341-373): the stored-hash loop
followed by an unconditional upsert of every service not seen before. -/
def update_services (h : AgentService → Nat)
    (services : List (String × AgentService)) (hashes : List (String × Nat))
    (skip_hash_check : Bool) : List ConsulServiceOp :=
  let r := update_services_loop h hashes services skip_hash_check
  r.1 ++ r.2.map (fun p => ConsulServiceOp.Upsert p.2 (h p.2))

/-! ## Shared facts about the value encoder -/

theorem encodeValue_exists (v : SqliteValue) (h : validValueB v = true) :
    ∃ ev, encodeValue v = some ev ∧ ev.length = v.bytes_needed := by
  cases v with
  | Null => exact ⟨[0], rfl, rfl⟩
  | Integer i =>
    exact ⟨1 :: natLE 8 (toTwos i), rfl,
      by simp [natLE_length, SqliteValue.bytes_needed]⟩
  | Real bits =>
    exact ⟨2 :: natLE 8 bits, rfl,
      by simp [natLE_length, SqliteValue.bytes_needed]⟩
  | Text s =>
    simp only [validValueB, Bool.and_eq_true, decide_eq_true_eq] at h
    obtain ⟨h1, _⟩ := h
    have h32 : s.length < 4294967296 := by omega
    refine ⟨3 :: (natLE 4 s.length ++ s), ?_, ?_⟩
    · simp [encodeValue, withLen, h32]
    · simp [natLE_length, SqliteValue.bytes_needed]
      omega
  | Blob b =>
    simp only [validValueB, decide_eq_true_eq] at h
    have h32 : b.length < 4294967296 := by omega
    refine ⟨4 :: (natLE 4 b.length ++ b), ?_, ?_⟩
    · simp [encodeValue, withLen, h32]
    · simp [natLE_length, SqliteValue.bytes_needed]
      omega

theorem estimated_le_bytes_needed (v : SqliteValue) :
    v.estimated_byte_size ≤ v.bytes_needed + 12 := by
  cases v <;> simp [SqliteValue.estimated_byte_size, SqliteValue.bytes_needed]

theorem encodeChange_eq (c : Change) (ev : List Nat)
    (ht : c.table.length < 2 ^ 32) (hp : c.pk.length < 2 ^ 32)
    (hc : c.cid.length < 2 ^ 32) (hv : encodeValue c.val = some ev) :
    encodeChange c = some ((natLE 4 c.table.length ++ c.table)
      ++ (natLE 4 c.pk.length ++ c.pk) ++ (natLE 4 c.cid.length ++ c.cid)
      ++ ev ++ natLE 8 (toTwos c.col_version) ++ natLE 8 (toTwos c.db_version)
      ++ natLE 8 (toTwos c.seq) ++ c.site_id ++ natLE 8 (toTwos c.cl)) := by
  have ht' : c.table.length < 4294967296 := by omega
  have hp' : c.pk.length < 4294967296 := by omega
  have hc' : c.cid.length < 4294967296 := by omega
  simp [encodeChange, withLen, ht', hp', hc', hv]

/-- C1: the claimed round-trip `decode(encode(c)) == c` fails on the code:
the `Blob` decode arm (lib.rs lines 589-596) reads the 32-bit length, but
then fills a buffer of length zero (`SmallVec::with_capacity(len)` has
length 0, and speedy's `read_bytes` fills only `output.len()` bytes), so a
non-empty blob decodes to the empty blob and its payload bytes are left in
the reader.  Evaluated at the failing input `Blob [1]`: the encoder
produces tag 4, length 1, payload `[1]`, and the decoder returns
`Blob []` with the payload `[1]` unconsumed. -/
theorem c1_blob_roundtrip_bug :
    encodeValue (SqliteValue.Blob [1]) = some [4, 1, 0, 0, 0, 1] ∧
    decodeValue [4, 1, 0, 0, 0, 1] = some (SqliteValue.Blob [], [1]) ∧
    some (SqliteValue.Blob [], [1]) ≠ some (SqliteValue.Blob [1], ([] : List Nat)) := by
  refine ⟨by decide, by decide, by decide⟩

/-- C2: decoding any input whose leading tag byte is outside `{0,1,2,3,4}`
fails (`unknown SqliteValue variant`), never substituting a default. -/
theorem c2_unknown_tag_rejected (t : Nat) (h4 : 4 < t) (h256 : t < 256)
    (rest : List Nat) : decodeValue (t :: rest) = none := by
  have h0 : t ≠ 0 := by omega
  have h1 : t ≠ 1 := by omega
  have h2 : t ≠ 2 := by omega
  have h3 : t ≠ 3 := by omega
  have h4' : t ≠ 4 := by omega
  simp [decodeValue, h0, h1, h2, h3, h4']

theorem c2_unknown_tag_rejected_witness : decodeValue [5] = none :=
  c2_unknown_tag_rejected 5 (by decide) (by decide) []

/-- C3 counterexample: the byte `0xFF` is not valid UTF-8, yet decoding a
`Text` (tag 3) payload containing exactly that byte succeeds and returns a
`Text` value holding the invalid byte — the claim that such a decode must
fail is false (`read_from` uses `CompactString::from_utf8_unchecked`,
lib.rs lines 585-587). -/
theorem c3_invalid_utf8_text_decodes :
    validUtf8 [255] = false ∧
    decodeValue [3, 1, 0, 0, 0, 255] = some (SqliteValue.Text [255], []) := by
  refine ⟨by decide, by decide⟩

/-- C3 amended: decoding a `Text` payload performs no UTF-8 validation at
all; for every payload byte sequence (valid UTF-8 or not) with an in-range
length, the decoder succeeds and returns a `Text` value holding exactly
those bytes. -/
theorem c3_text_decode_skips_validation (bs rest : List Nat)
    (h : bs.length < 2 ^ 32) :
    decodeValue (3 :: (natLE 4 bs.length ++ (bs ++ rest)))
      = some (SqliteValue.Text bs, rest) := by
  have h4 : readBytes 4 (natLE 4 bs.length ++ (bs ++ rest))
      = some (natLE 4 bs.length, bs ++ rest) := by
    have hr := readBytes_append (natLE 4 bs.length) (bs ++ rest)
    rwa [natLE_length] at hr
  have hlt : bs.length < 256 ^ 4 := by
    have e : (256 : Nat) ^ 4 = 2 ^ 32 := by norm_num
    omega
  have hlen : natFromLE (natLE 4 bs.length) = bs.length := natFromLE_natLE 4 _ hlt
  simp [decodeValue, h4, hlen, readBytes_append]

theorem c3_text_decode_skips_validation_witness :
    decodeValue (3 :: (natLE 4 ([255] : List Nat).length ++ ([255] ++ ([] : List Nat))))
      = some (SqliteValue.Text [255], []) :=
  c3_text_decode_skips_validation [255] [] (by decide)

/-- C4 counterexample: `Real(0.0)` and `Real(-0.0)` (bit patterns `0` and
`2^63`) compare equal under the derived `==` (IEEE-754 treats the two
zeros as equal), yet `integer_decode` — the exact data the `Hash` impl
feeds to the hasher — differs between them (sign `1` versus `-1`), so the
claim "they hash differently only if they compare unequal" is false. -/
theorem c4_signed_zero_hash_counterexample :
    f64BitsEq 0 (2 ^ 63) = true ∧ integer_decode 0 ≠ integer_decode (2 ^ 63) := by
  refine ⟨by decide, by decide⟩

/-- C4 amended: hashing of `Real` is a pure function of the `f64` bit
pattern (identical bit patterns always hash identically), but `==`/hash
consistency fails for signed zero: `Real(0.0) == Real(-0.0)` holds while
the two feed different `integer_decode` triples to the hasher. -/
theorem c4_hash_determined_by_bits :
    (∀ b1 b2 : Nat, b1 = b2 → integer_decode b1 = integer_decode b2) ∧
    (f64BitsEq 0 (2 ^ 63) = true ∧ integer_decode 0 ≠ integer_decode (2 ^ 63)) := by
  refine ⟨fun b1 b2 h => by rw [h], by decide, by decide⟩

theorem c4_hash_determined_by_bits_witness :
    integer_decode 42 = integer_decode 42 :=
  c4_hash_determined_by_bits.1 42 42 rfl

/-- C5: `column_type` is total — every constructible value maps to exactly
one of the five tags, every tag is one of the five, and the numeric codes
are exactly `Integer = 1`, `Float = 2`, `Text = 3`, `Blob = 4`,
`Null = 5`. -/
theorem c5_column_type_total :
    (∀ v : SqliteValue, ∃! t : ColumnType, v.column_type = t) ∧
    (∀ t : ColumnType, t = ColumnType.Integer ∨ t = ColumnType.Float ∨
      t = ColumnType.Text ∨ t = ColumnType.Blob ∨ t = ColumnType.Null) ∧
    ColumnType.code ColumnType.Integer = 1 ∧
    ColumnType.code ColumnType.Float = 2 ∧
    ColumnType.code ColumnType.Text = 3 ∧
    ColumnType.code ColumnType.Blob = 4 ∧
    ColumnType.code ColumnType.Null = 5 := by
  refine ⟨fun v => ⟨v.column_type, rfl, fun y hy => hy.symm⟩,
    fun t => by cases t <;> simp, rfl, rfl, rfl, rfl, rfl⟩

/-- C6: the encoding of every valid value is a one-byte type tag followed
by a payload of exactly 0 bytes for `Null`, 8 for `Integer`, 8 for `Real`,
and a 4-byte length prefix plus that many raw bytes for `Text`/`Blob`;
the total size — also reported by `bytes_needed` — is 1, 9, 9, `5 + len`,
`5 + len` respectively. -/
theorem c6_encoded_layout (v : SqliteValue) (h : validValueB v = true) :
    ∃ payload : List Nat,
      encodeValue v = some ((match v with
        | .Null => 0 | .Integer _ => 1 | .Real _ => 2
        | .Text _ => 3 | .Blob _ => 4) :: payload) ∧
      payload.length = (match v with
        | .Null => 0 | .Integer _ => 8 | .Real _ => 8
        | .Text s => 4 + s.length | .Blob b => 4 + b.length) ∧
      v.bytes_needed = 1 + payload.length := by
  cases v with
  | Null => exact ⟨[], rfl, rfl, rfl⟩
  | Integer i =>
    exact ⟨natLE 8 (toTwos i), rfl, natLE_length 8 _,
      by simp [SqliteValue.bytes_needed, natLE_length]⟩
  | Real bits =>
    exact ⟨natLE 8 bits, rfl, natLE_length 8 _,
      by simp [SqliteValue.bytes_needed, natLE_length]⟩
  | Text s =>
    simp only [validValueB, Bool.and_eq_true, decide_eq_true_eq] at h
    obtain ⟨h1, _⟩ := h
    have h32 : s.length < 4294967296 := by omega
    refine ⟨natLE 4 s.length ++ s, ?_, ?_, ?_⟩
    · simp [encodeValue, withLen, h32]
    · simp [natLE_length]
    · simp [SqliteValue.bytes_needed, natLE_length]
  | Blob b =>
    simp only [validValueB, decide_eq_true_eq] at h
    have h32 : b.length < 4294967296 := by omega
    refine ⟨natLE 4 b.length ++ b, ?_, ?_, ?_⟩
    · simp [encodeValue, withLen, h32]
    · simp [natLE_length]
    · simp [SqliteValue.bytes_needed, natLE_length]

theorem c6_encoded_layout_witness :
    validValueB (SqliteValue.Text [104, 105]) = true ∧
    ∃ payload : List Nat,
      encodeValue (SqliteValue.Text [104, 105]) = some (3 :: payload) ∧
      payload.length = 4 + 2 ∧
      (SqliteValue.Text [104, 105]).bytes_needed = 1 + payload.length :=
  ⟨by decide, c6_encoded_layout (SqliteValue.Text [104, 105]) (by decide)⟩

/-- C7: the untagged textual serialization of `Statement` disambiguates by
shape: a bare string deserializes to `Simple`, a two-element array of a
string and an array of parameters (each of which deserializes as a
`SqliteParam`) deserializes to `WithParams`, an object with a `query`
field deserializes to `Verbose`; and serialization produces the
corresponding shapes. -/
theorem c7_statement_shapes :
    (∀ s : String, deserializeStatement (Json.str s) = some (Statement.Simple s)) ∧
    (∀ (q : String) (items : List Json) (ps : List SqliteParam),
      items.mapM deserializeParam = some ps →
      deserializeStatement (Json.arr [Json.str q, Json.arr items])
        = some (Statement.WithParams q ps)) ∧
    (∀ q : String, deserializeStatement (Json.obj [("query", Json.str q)])
        = some (Statement.Verbose q none none)) ∧
    (∀ s : String, serializeStatement (Statement.Simple s) = Json.str s) ∧
    (∀ (q : String) (ps : List SqliteParam),
      serializeStatement (Statement.WithParams q ps)
        = Json.arr [Json.str q, Json.arr (ps.map serializeParam)]) ∧
    (∀ (q : String) (ps : Option (List SqliteParam))
        (nps : Option (List (String × SqliteParam))),
      ∃ fields, serializeStatement (Statement.Verbose q ps nps) = Json.obj fields ∧
        getField fields "query" = some (Json.str q)) := by
  refine ⟨fun _ => rfl, ?_, fun _ => rfl, fun _ => rfl, fun _ _ => rfl,
    fun _ _ _ => ⟨_, rfl, rfl⟩⟩
  intro q items ps h
  have h1 : deserWithParams (Json.arr [Json.str q, Json.arr items])
      = some (Statement.WithParams q ps) := by
    show (items.mapM deserializeParam).map (fun ps => Statement.WithParams q ps)
        = some (Statement.WithParams q ps)
    rw [h]
    rfl
  simp [deserializeStatement, deserVerbose, deserSimple, h1, Option.orElse]

theorem c7_statement_shapes_witness :
    (([Json.int 1, Json.str "x"] : List Json).mapM deserializeParam
      = some [SqliteParam.Integer 1, SqliteParam.Text "x"]) ∧
    deserializeStatement
        (Json.arr [Json.str "sel", Json.arr [Json.int 1, Json.str "x"]])
      = some (Statement.WithParams "sel"
          [SqliteParam.Integer 1, SqliteParam.Text "x"]) :=
  ⟨by rfl, c7_statement_shapes.2.1 "sel" [Json.int 1, Json.str "x"]
    [SqliteParam.Integer 1, SqliteParam.Text "x"] (by rfl)⟩

/-- C8: `to_owned` always succeeds and preserves variant and contents —
it is a two-sided inverse of `as_ref`, so in particular
`v.as_ref().to_owned() = v` for every owned value. -/
theorem c8_to_owned_as_ref :
    (∀ r : SqliteValueRef, r.to_owned.as_ref = r) ∧
    (∀ v : SqliteValue, v.as_ref.to_owned = v) :=
  ⟨fun r => by cases r <;> rfl, fun v => by cases v <;> rfl⟩

/-- C9: the estimated byte size of a `Change` never exceeds the exact wire
size produced by the encoder — the estimate omits the three 4-byte length
prefixes (12 bytes) and over-counts only the `Null` payload (by 1). -/
theorem c9_estimate_le_wire_size (c : Change) (h : validChangeB c = true) :
    ∃ bs, encodeChange c = some bs ∧ c.estimated_byte_size ≤ bs.length := by
  simp only [validChangeB, Bool.and_eq_true, decide_eq_true_eq] at h
  obtain ⟨⟨⟨⟨ht, hp⟩, hc⟩, hv⟩, hs⟩ := h
  obtain ⟨ev, hev, hevlen⟩ := encodeValue_exists c.val hv
  refine ⟨_, encodeChange_eq c ev ht hp hc hev, ?_⟩
  have hest := estimated_le_bytes_needed c.val
  simp only [List.length_append, natLE_length, Change.estimated_byte_size]
  omega

theorem c9_estimate_le_wire_size_witness :
    validChangeB ⟨[117, 115, 101, 114, 115], [1], [110, 97, 109, 101],
      SqliteValue.Text [97, 108, 105, 99, 101], 1, 10, 0,
      [0, 0, 0, 0, 0, 0, 0, 0, 0, 0, 0, 0, 0, 0, 0, 0], 1⟩ = true ∧
    ∃ bs, encodeChange ⟨[117, 115, 101, 114, 115], [1], [110, 97, 109, 101],
        SqliteValue.Text [97, 108, 105, 99, 101], 1, 10, 0,
        [0, 0, 0, 0, 0, 0, 0, 0, 0, 0, 0, 0, 0, 0, 0, 0], 1⟩ = some bs ∧
      Change.estimated_byte_size ⟨[117, 115, 101, 114, 115], [1], [110, 97, 109, 101],
        SqliteValue.Text [97, 108, 105, 99, 101], 1, 10, 0,
        [0, 0, 0, 0, 0, 0, 0, 0, 0, 0, 0, 0, 0, 0, 0, 0], 1⟩ ≤ bs.length :=
  ⟨by decide, c9_estimate_le_wire_size _ (by decide)⟩

/-! ## Association-list facts used for the consul diff -/

theorem lookup_cons_ite {β : Type} (a k : String) (v : β) (l : List (String × β)) :
    List.lookup a ((k, v) :: l) = if a = k then some v else List.lookup a l := by
  rw [List.lookup_cons]
  by_cases h : a = k
  · simp [h]
  · have hb : (a == k) = false := beq_eq_false_iff_ne.mpr h
    simp [hb, h]

theorem lookup_eq_none_iff {β : Type} (a : String) (l : List (String × β)) :
    List.lookup a l = none ↔ a ∉ l.map Prod.fst := by
  induction l with
  | nil => simp
  | cons p rest ih =>
    obtain ⟨k, v⟩ := p
    rw [lookup_cons_ite]
    by_cases h : a = k
    · simp [h]
    · simp [h, ih]

theorem lookup_removeKey (a b : String) (m : List (String × AgentService)) :
    List.lookup a (removeKey b m) = if a = b then none else List.lookup a m := by
  induction m with
  | nil => simp [removeKey]
  | cons p rest ih =>
    obtain ⟨k, v⟩ := p
    simp only [removeKey] at ih ⊢
    rw [List.filter_cons]
    by_cases hkb : k = b
    · have hb : (!(k == b)) = false := by simp [hkb]
      rw [hb, if_neg (by simp), ih, lookup_cons_ite]
      by_cases hab : a = b
      · simp [hab]
      · have hak : ¬a = k := fun he => hab (he.trans hkb)
        simp [hab, hak]
    · have hb : (!(k == b)) = true := by simp [hkb]
      rw [hb, if_pos rfl, lookup_cons_ite, lookup_cons_ite]
      by_cases hak : a = k
      · subst hak
        simp [hkb]
      · rw [if_neg hak, if_neg hak, ih]

theorem update_services_loop_ops (h : AgentService → Nat)
    (hashes : List (String × Nat)) (services : List (String × AgentService))
    (skip : Bool) (hn : (hashes.map Prod.fst).Nodup) :
    (update_services_loop h hashes services skip).1 =
      hashes.filterMap (fun q =>
        match List.lookup q.1 services with
        | some svc =>
          if skip || q.2 != h svc then some (ConsulServiceOp.Upsert svc (h svc))
          else none
        | none => some (ConsulServiceOp.Delete q.1)) := by
  induction hashes generalizing services with
  | nil => rfl
  | cons q rest ih =>
    obtain ⟨id, old⟩ := q
    rw [List.map_cons, List.nodup_cons] at hn
    obtain ⟨hid, hrest⟩ := hn
    have hid' : id ∉ rest.map Prod.fst := hid
    have hlook : ∀ x ∈ rest,
        List.lookup x.1 (removeKey id services) = List.lookup x.1 services := by
      intro x hx
      have hne : x.1 ≠ id := by
        intro he
        apply hid'
        rw [← he]
        exact List.mem_map_of_mem Prod.fst hx
      rw [lookup_removeKey, if_neg hne]
    have hcong : rest.filterMap (fun q =>
        match List.lookup q.1 (removeKey id services) with
        | some svc =>
          if skip || q.2 != h svc then some (ConsulServiceOp.Upsert svc (h svc))
          else none
        | none => some (ConsulServiceOp.Delete q.1)) =
        rest.filterMap (fun q =>
        match List.lookup q.1 services with
        | some svc =>
          if skip || q.2 != h svc then some (ConsulServiceOp.Upsert svc (h svc))
          else none
        | none => some (ConsulServiceOp.Delete q.1)) :=
      List.filterMap_congr (fun x hx => by rw [hlook x hx])
    rw [List.filterMap_cons]
    simp only [update_services_loop]
    rcases hl : List.lookup id services with _ | svc
    · simp only [hl]
      rw [ih services hrest]
    · simp only [hl]
      by_cases hcond : (skip || old != h svc) = true
      · simp only [hcond, eq_self_iff_true, if_true]
        rw [ih (removeKey id services) hrest, hcong]
      · rw [Bool.not_eq_true] at hcond
        simp only [hcond, Bool.false_eq_true, if_false]
        rw [ih (removeKey id services) hrest, hcong]

theorem update_services_loop_rem (h : AgentService → Nat)
    (hashes : List (String × Nat)) (services : List (String × AgentService))
    (skip : Bool) :
    (update_services_loop h hashes services skip).2 =
      services.filter (fun p => !((hashes.map Prod.fst).contains p.1)) := by
  induction hashes generalizing services with
  | nil =>
    simp only [update_services_loop, List.map_nil]
    have he : (fun (p : String × AgentService) => !(([] : List String).contains p.1))
        = fun _ => true := by
      funext p
      simp
    rw [he, List.filter_true]
  | cons q rest ih =>
    obtain ⟨id, old⟩ := q
    simp only [update_services_loop]
    rcases hl : List.lookup id services with _ | svc
    · simp only [hl]
      rw [ih services]
      apply List.filter_congr
      intro p hp
      have hne : p.1 ≠ id := by
        intro he
        apply (lookup_eq_none_iff id services).mp hl
        rw [← he]
        exact List.mem_map_of_mem Prod.fst hp
      have hb : (p.1 == id) = false := beq_eq_false_iff_ne.mpr hne
      simp [List.contains_cons, hb]
    · simp only [hl]
      have h2 : ∀ (pr : List ConsulServiceOp × List (String × AgentService))
          (c : Bool) (u : ConsulServiceOp),
          ((if c = true then (u :: pr.1, pr.2) else pr)).2 = pr.2 := by
        intro pr c u
        cases c <;> rfl
      rw [h2, ih (removeKey id services)]
      simp only [removeKey, List.filter_filter]
      apply List.filter_congr
      intro p _
      simp only [List.map_cons, List.contains_cons, Bool.not_or]
      rw [Bool.and_comm]

theorem update_services_eq (h : AgentService → Nat)
    (services : List (String × AgentService)) (hashes : List (String × Nat))
    (skip : Bool) (hn : (hashes.map Prod.fst).Nodup) :
    update_services h services hashes skip =
      hashes.filterMap (fun q =>
        match List.lookup q.1 services with
        | some svc =>
          if skip || q.2 != h svc then some (ConsulServiceOp.Upsert svc (h svc))
          else none
        | none => some (ConsulServiceOp.Delete q.1))
      ++ (services.filter (fun p => !((hashes.map Prod.fst).contains p.1))).map
          (fun p => ConsulServiceOp.Upsert p.2 (h p.2)) := by
  show (update_services_loop h hashes services skip).1
      ++ (update_services_loop h hashes services skip).2.map
        (fun p => ConsulServiceOp.Upsert p.2 (h p.2)) = _
  rw [update_services_loop_ops h hashes services skip hn,
    update_services_loop_rem h hashes services skip]

theorem lookup_some_mem {β : Type} (a : String) (b : β) (l : List (String × β))
    (hl : List.lookup a l = some b) : (a, b) ∈ l := by
  induction l with
  | nil => simp [List.lookup] at hl
  | cons p rest ih =>
    obtain ⟨k, v⟩ := p
    rw [lookup_cons_ite] at hl
    by_cases hak : a = k
    · rw [if_pos hak] at hl
      rw [hak, Option.some.inj hl]
      exact List.mem_cons_self _ _
    · rw [if_neg hak] at hl
      exact List.mem_cons_of_mem _ (ih hl)

theorem countP_split {α : Type} (p q : α → Bool) (l : List α) :
    l.countP p = (l.countP fun a => p a && q a) + (l.countP fun a => p a && !q a) := by
  induction l with
  | nil => rfl
  | cons a t ih =>
    simp only [List.countP_cons, ih]
    cases hp : p a <;> cases hq : q a <;> simp <;> omega

theorem countP_key_eq (Q : AgentService → Bool) (id : String)
    (services : List (String × AgentService))
    (hsn : (services.map Prod.fst).Nodup) :
    services.countP (fun p => Q p.2 && (p.1 == id))
      = (match List.lookup id services with
        | some s => if Q s then 1 else 0
        | none => 0) := by
  induction services with
  | nil => rfl
  | cons p rest ih =>
    obtain ⟨k, v⟩ := p
    rw [List.map_cons, List.nodup_cons] at hsn
    obtain ⟨hk, hrest⟩ := hsn
    have hk' : k ∉ rest.map Prod.fst := hk
    rw [List.countP_cons, ih hrest, lookup_cons_ite]
    by_cases hik : id = k
    · subst hik
      have hnone : List.lookup id rest = none := (lookup_eq_none_iff id rest).mpr hk'
      rw [hnone]
      simp
    · have hb : (k == id) = false := beq_eq_false_iff_ne.mpr (fun he => hik he.symm)
      simp [hik, hb]

theorem countP_lookup_swap (G : String → Nat → AgentService → Bool)
    (hashes : List (String × Nat)) (services : List (String × AgentService))
    (hsn : (services.map Prod.fst).Nodup)
    (hhn : (hashes.map Prod.fst).Nodup) :
    hashes.countP (fun q => match List.lookup q.1 services with
        | some s => G q.1 q.2 s
        | none => false)
      = services.countP (fun p => match List.lookup p.1 hashes with
        | some o => G p.1 o p.2
        | none => false) := by
  induction hashes with
  | nil =>
    rw [List.countP_nil]
    symm
    rw [List.countP_eq_zero]
    intro a _
    simp [List.lookup]
  | cons q rest ih =>
    obtain ⟨id, old⟩ := q
    rw [List.map_cons, List.nodup_cons] at hhn
    obtain ⟨hid, hrest⟩ := hhn
    have hid' : id ∉ rest.map Prod.fst := hid
    rw [List.countP_cons, ih hrest]
    have hstep : services.countP (fun p =>
        match List.lookup p.1 ((id, old) :: rest) with
        | some o => G p.1 o p.2
        | none => false)
      = services.countP (fun p => if p.1 = id then G p.1 old p.2
          else match List.lookup p.1 rest with
          | some o => G p.1 o p.2
          | none => false) := by
      apply List.countP_congr
      intro p _
      rw [lookup_cons_ite]
      by_cases hp : p.1 = id
      · simp [hp]
      · simp [hp]
    rw [hstep, countP_split (fun p => if p.1 = id then G p.1 old p.2
          else match List.lookup p.1 rest with
          | some o => G p.1 o p.2
          | none => false) (fun p => p.1 == id) services]
    have hpart1 : services.countP (fun p =>
        (if p.1 = id then G p.1 old p.2
          else match List.lookup p.1 rest with
          | some o => G p.1 o p.2
          | none => false) && (p.1 == id))
      = services.countP (fun p => G id old p.2 && (p.1 == id)) := by
      apply List.countP_congr
      intro p _
      by_cases hp : p.1 = id
      · simp [hp]
      · simp [hp, beq_eq_false_iff_ne.mpr hp]
    have hpart2 : services.countP (fun p =>
        (if p.1 = id then G p.1 old p.2
          else match List.lookup p.1 rest with
          | some o => G p.1 o p.2
          | none => false) && !(p.1 == id))
      = services.countP (fun p => match List.lookup p.1 rest with
          | some o => G p.1 o p.2
          | none => false) := by
      apply List.countP_congr
      intro p _
      by_cases hp : p.1 = id
      · have hnone : List.lookup id rest = none :=
          (lookup_eq_none_iff id rest).mpr hid'
        simp [hp, hnone]
      · simp [hp, beq_eq_false_iff_ne.mpr hp]
    rw [hpart1, hpart2, countP_key_eq _ _ _ hsn]
    have hhead : (if (match List.lookup (id, old).1 services with
        | some s => G (id, old).1 (id, old).2 s
        | none => false) = true then 1 else 0)
      = (match List.lookup id services with
        | some s => if G id old s then 1 else 0
        | none => 0) := by
      rcases hl : List.lookup id services with _ | s
      · simp [hl]
      · simp [hl]
    rw [hhead]
    omega

theorem contains_iff_mem_keys (a : String) (l : List String) :
    l.contains a = true ↔ a ∈ l := by
  simp

/-- C10: with `skip_hash_check = false`, `update_services` emits, as a
multiset, exactly one `Delete` for each stored id absent from the services
map, exactly one `Upsert` carrying the service's own hash for each service
whose id is missing from the stored map or whose hash differs from the
stored one, and no operation for a service whose hash equals its stored
hash.  The hash function is abstract (`hash_service` feeds the whole
struct to an external `SeaHasher`; the diff logic only compares hashes for
equality), and the `HashMap`s are association lists with distinct keys. -/
theorem c10_update_services_ops (h : AgentService → Nat)
    (services : List (String × AgentService)) (hashes : List (String × Nat))
    (hsn : (services.map Prod.fst).Nodup)
    (hhn : (hashes.map Prod.fst).Nodup) :
    (update_services h services hashes false).Perm
      (hashes.filterMap (fun q => if List.lookup q.1 services = none
          then some (ConsulServiceOp.Delete q.1) else none)
       ++ services.filterMap (fun p => if List.lookup p.1 hashes = some (h p.2)
          then none else some (ConsulServiceOp.Upsert p.2 (h p.2)))) := by
  rw [List.perm_iff_count]
  intro o
  rw [update_services_eq h services hashes false hhn]
  rw [List.count_append, List.count_append]
  cases o with
  | Delete id =>
    have hB : List.count (ConsulServiceOp.Delete id)
        ((services.filter (fun p => !((hashes.map Prod.fst).contains p.1))).map
          (fun p => ConsulServiceOp.Upsert p.2 (h p.2))) = 0 := by
      rw [List.count_eq_zero]
      intro hmem
      rw [List.mem_map] at hmem
      obtain ⟨p, _, hp⟩ := hmem
      exact ConsulServiceOp.noConfusion hp
    have hU : List.count (ConsulServiceOp.Delete id)
        (services.filterMap (fun p => if List.lookup p.1 hashes = some (h p.2)
          then none else some (ConsulServiceOp.Upsert p.2 (h p.2)))) = 0 := by
      rw [List.count_eq_zero]
      intro hmem
      rw [List.mem_filterMap] at hmem
      obtain ⟨p, _, hp⟩ := hmem
      by_cases hc : List.lookup p.1 hashes = some (h p.2)
      · rw [if_pos hc] at hp
        exact Option.noConfusion hp
      · rw [if_neg hc] at hp
        exact ConsulServiceOp.noConfusion (Option.some.inj hp)
    have hAD : List.count (ConsulServiceOp.Delete id)
        (hashes.filterMap (fun q =>
          match List.lookup q.1 services with
          | some svc =>
            if false || q.2 != h svc then some (ConsulServiceOp.Upsert svc (h svc))
            else none
          | none => some (ConsulServiceOp.Delete q.1)))
      = List.count (ConsulServiceOp.Delete id)
        (hashes.filterMap (fun q => if List.lookup q.1 services = none
          then some (ConsulServiceOp.Delete q.1) else none)) := by
      rw [List.count_filterMap, List.count_filterMap]
      apply List.countP_congr
      intro q _
      rcases hq : List.lookup q.1 services with _ | s
      · simp [hq]
      · rcases hb : (q.2 != h s) with _ | _ <;> simp [hq, hb]
    rw [hAD, hB, hU]
  | Upsert svc hs =>
    have hD : List.count (ConsulServiceOp.Upsert svc hs)
        (hashes.filterMap (fun q => if List.lookup q.1 services = none
          then some (ConsulServiceOp.Delete q.1) else none)) = 0 := by
      rw [List.count_eq_zero]
      intro hmem
      rw [List.mem_filterMap] at hmem
      obtain ⟨q, _, hq⟩ := hmem
      by_cases hc : List.lookup q.1 services = none
      · rw [if_pos hc] at hq
        exact ConsulServiceOp.noConfusion (Option.some.inj hq)
      · rw [if_neg hc] at hq
        exact Option.noConfusion hq
    by_cases hhs : hs = h svc
    · subst hhs
      -- count in the mixed hash-loop output
      have hA : List.count (ConsulServiceOp.Upsert svc (h svc))
          (hashes.filterMap (fun q =>
            match List.lookup q.1 services with
            | some s =>
              if false || q.2 != h s then some (ConsulServiceOp.Upsert s (h s))
              else none
            | none => some (ConsulServiceOp.Delete q.1)))
        = hashes.countP (fun q =>
            match List.lookup q.1 services with
            | some s => (s == svc) && (q.2 != h s)
            | none => false) := by
        rw [List.count_filterMap]
        apply List.countP_congr
        intro q _
        rcases hq : List.lookup q.1 services with _ | s
        · simp [hq]
        · rcases hb : (q.2 != h s) with _ | _
          · simp [hq, hb]
          · by_cases hse : s = svc
            · subst hse
              simp [hb]
            · have hx : ¬(ConsulServiceOp.Upsert s (h s)
                  = ConsulServiceOp.Upsert svc (h svc)) := by
                rw [ConsulServiceOp.Upsert.injEq]
                exact fun hh => hse hh.1
              simp [hb, hse, hx]
      -- count in the new-services part
      have hB : List.count (ConsulServiceOp.Upsert svc (h svc))
          ((services.filter (fun p => !((hashes.map Prod.fst).contains p.1))).map
            (fun p => ConsulServiceOp.Upsert p.2 (h p.2)))
        = services.countP (fun p =>
            (p.2 == svc) && !((hashes.map Prod.fst).contains p.1)) := by
        rw [← List.filterMap_eq_map, List.count_filterMap, List.countP_filter]
        apply List.countP_congr
        intro p _
        by_cases hpv : p.2 = svc
        · subst hpv
          simp
        · have : ¬(ConsulServiceOp.Upsert p.2 (h p.2) = ConsulServiceOp.Upsert svc (h svc)) := by
            rw [ConsulServiceOp.Upsert.injEq]
            exact fun hh => hpv hh.1
          simp [hpv, this]
      -- count in the claim's upsert list
      have hU : List.count (ConsulServiceOp.Upsert svc (h svc))
          (services.filterMap (fun p => if List.lookup p.1 hashes = some (h p.2)
            then none else some (ConsulServiceOp.Upsert p.2 (h p.2))))
        = services.countP (fun p =>
            (match List.lookup p.1 hashes with
             | some o => (p.2 == svc) && (o != h p.2)
             | none => false))
          + services.countP (fun p =>
            (p.2 == svc) && !((hashes.map Prod.fst).contains p.1)) := by
        rw [List.count_filterMap]
        rw [countP_split (fun p =>
            (if List.lookup p.1 hashes = some (h p.2)
              then none else some (ConsulServiceOp.Upsert p.2 (h p.2)))
              == some (ConsulServiceOp.Upsert svc (h svc)))
          (fun p => (List.lookup p.1 hashes).isSome) services]
        have h1 : services.countP (fun p =>
            ((if List.lookup p.1 hashes = some (h p.2)
              then none else some (ConsulServiceOp.Upsert p.2 (h p.2)))
              == some (ConsulServiceOp.Upsert svc (h svc)))
              && (List.lookup p.1 hashes).isSome)
          = services.countP (fun p =>
            (match List.lookup p.1 hashes with
             | some o => (p.2 == svc) && (o != h p.2)
             | none => false)) := by
          apply List.countP_congr
          intro p _
          rcases hp : List.lookup p.1 hashes with _ | o
          · simp
          · by_cases ho : o = h p.2
            · subst ho
              simp
            · have hne : ¬(some o = some (h p.2)) :=
                fun hx => ho (Option.some.inj hx)
              rw [if_neg hne]
              have hob : (o != h p.2) = true := bne_iff_ne.mpr ho
              simp only [Option.isSome_some, Bool.and_true, hob]
              by_cases hpv : p.2 = svc
              · subst hpv
                simp
              · have hx : ¬(ConsulServiceOp.Upsert p.2 (h p.2)
                    = ConsulServiceOp.Upsert svc (h svc)) := by
                  rw [ConsulServiceOp.Upsert.injEq]
                  exact fun hh => hpv hh.1
                simp [hpv, hx]
        have h2 : services.countP (fun p =>
            ((if List.lookup p.1 hashes = some (h p.2)
              then none else some (ConsulServiceOp.Upsert p.2 (h p.2)))
              == some (ConsulServiceOp.Upsert svc (h svc)))
              && !(List.lookup p.1 hashes).isSome)
          = services.countP (fun p =>
            (p.2 == svc) && !((hashes.map Prod.fst).contains p.1)) := by
          apply List.countP_congr
          intro p _
          rcases hp : List.lookup p.1 hashes with _ | o
          · have hnm : p.1 ∉ hashes.map Prod.fst :=
              (lookup_eq_none_iff p.1 hashes).mp hp
            have hcont : ((hashes.map Prod.fst).contains p.1) = false := by
              rw [← Bool.not_eq_true, contains_iff_mem_keys]
              exact hnm
            rw [if_neg (fun hx => Option.noConfusion hx)]
            simp only [Option.isSome_none, Bool.not_false, Bool.and_true, hcont]
            by_cases hpv : p.2 = svc
            · subst hpv
              simp
            · have hx : ¬(ConsulServiceOp.Upsert p.2 (h p.2)
                  = ConsulServiceOp.Upsert svc (h svc)) := by
                rw [ConsulServiceOp.Upsert.injEq]
                exact fun hh => hpv hh.1
              simp [hpv, hx]
          · have hmem : p.1 ∈ hashes.map Prod.fst := by
              by_contra hnm
              rw [(lookup_eq_none_iff p.1 hashes).mpr hnm] at hp
              exact Option.noConfusion hp
            have hcont : ((hashes.map Prod.fst).contains p.1) = true :=
              (contains_iff_mem_keys _ _).mpr hmem
            simp only [Option.isSome_some, Bool.not_true, Bool.and_false,
              hcont, Bool.false_eq_true, false_iff]
        rw [h1, h2]
      have hswap : hashes.countP (fun q =>
          match List.lookup q.1 services with
          | some s => (s == svc) && (q.2 != h s)
          | none => false)
        = services.countP (fun p =>
          match List.lookup p.1 hashes with
          | some o => (p.2 == svc) && (o != h p.2)
          | none => false) :=
        countP_lookup_swap (fun _ o s => (s == svc) && (o != h s))
          hashes services hsn hhn
      rw [hA, hB, hU, hD]
      omega
    · -- the queried hash value is not the service's own hash: no side has it
      have hA0 : List.count (ConsulServiceOp.Upsert svc hs)
          (hashes.filterMap (fun q =>
            match List.lookup q.1 services with
            | some s =>
              if false || q.2 != h s then some (ConsulServiceOp.Upsert s (h s))
              else none
            | none => some (ConsulServiceOp.Delete q.1))) = 0 := by
        rw [List.count_eq_zero]
        intro hmem
        rw [List.mem_filterMap] at hmem
        obtain ⟨q, _, hq⟩ := hmem
        rcases hl : List.lookup q.1 services with _ | s
        · rw [hl] at hq
          exact ConsulServiceOp.noConfusion (Option.some.inj hq)
        · rw [hl] at hq
          simp only [Bool.false_or] at hq
          rcases hb : (q.2 != h s) with _ | _
          · rw [hb] at hq
            simp at hq
          · rw [hb] at hq
            rw [if_pos rfl] at hq
            have hinj := Option.some.inj hq
            rw [ConsulServiceOp.Upsert.injEq] at hinj
            apply hhs
            rw [← hinj.2, hinj.1]
      have hB0 : List.count (ConsulServiceOp.Upsert svc hs)
          ((services.filter (fun p => !((hashes.map Prod.fst).contains p.1))).map
            (fun p => ConsulServiceOp.Upsert p.2 (h p.2))) = 0 := by
        rw [List.count_eq_zero]
        intro hmem
        rw [List.mem_map] at hmem
        obtain ⟨p, _, hp⟩ := hmem
        rw [ConsulServiceOp.Upsert.injEq] at hp
        exact hhs (hp.1 ▸ hp.2.symm)
      have hU0 : List.count (ConsulServiceOp.Upsert svc hs)
          (services.filterMap (fun p => if List.lookup p.1 hashes = some (h p.2)
            then none else some (ConsulServiceOp.Upsert p.2 (h p.2)))) = 0 := by
        rw [List.count_eq_zero]
        intro hmem
        rw [List.mem_filterMap] at hmem
        obtain ⟨p, _, hp⟩ := hmem
        by_cases hc : List.lookup p.1 hashes = some (h p.2)
        · rw [if_pos hc] at hp
          exact Option.noConfusion hp
        · rw [if_neg hc] at hp
          have := Option.some.inj hp
          rw [ConsulServiceOp.Upsert.injEq] at this
          exact hhs (this.1 ▸ this.2.symm)
      rw [hA0, hB0, hU0, hD]


theorem c10_update_services_ops_witness :
    ((([(("b" : String), (⟨"b", "nb", [], [], 1337, "addr"⟩ : AgentService)),
        ("c", ⟨"c", "nc", [], [], 1, "addr2"⟩)]).map Prod.fst).Nodup ∧
      (([(("a" : String), (1 : Nat)), ("b", 2)]).map Prod.fst).Nodup) ∧
    (update_services (fun _ => 7)
        [("b", ⟨"b", "nb", [], [], 1337, "addr"⟩),
         ("c", ⟨"c", "nc", [], [], 1, "addr2"⟩)]
        [("a", 1), ("b", 2)] false).Perm
      (([(("a" : String), (1 : Nat)), ("b", 2)]).filterMap
          (fun q => if List.lookup q.1
              [(("b" : String), (⟨"b", "nb", [], [], 1337, "addr"⟩ : AgentService)),
               ("c", ⟨"c", "nc", [], [], 1, "addr2"⟩)] = none
            then some (ConsulServiceOp.Delete q.1) else none)
       ++ ([(("b" : String), (⟨"b", "nb", [], [], 1337, "addr"⟩ : AgentService)),
            ("c", ⟨"c", "nc", [], [], 1, "addr2"⟩)]).filterMap
          (fun p => if List.lookup p.1 [(("a" : String), (1 : Nat)), ("b", 2)]
              = some ((fun _ => 7) p.2)
            then none else some (ConsulServiceOp.Upsert p.2 ((fun _ => 7) p.2)))) :=
  ⟨⟨by decide, by decide⟩,
    c10_update_services_ops (fun _ => 7)
      [("b", ⟨"b", "nb", [], [], 1337, "addr"⟩),
       ("c", ⟨"c", "nc", [], [], 1, "addr2"⟩)]
      [("a", 1), ("b", 2)] (by decide) (by decide)⟩
